import Mathlib

/-!
# Verification of `py_nb_to_src.converter`

A shallow embedding of `src/py_nb_to_src/converter.py`.

Paths are modelled as an absolute, resolved directory (a list of components)
together with a final name.  `pStem`, `pSuffix` and `withSuffixName` follow
CPython's `pathlib.PurePath.stem` / `.suffix` / `.with_suffix`:
the suffix is `name[i:]` where `i = name.rfind('.')`, provided
`0 < i < len(name) - 1`, and otherwise empty.

The external world (the `subprocess.run` exit codes, `Path.iterdir` /
`Path.glob` directory listings in filesystem iteration order, `Path.is_dir`,
`Path.resolve`, and plain file existence) is an oracle structure `World`.
The field `fileExists` exists so that absence of any local existence check in
the converters is expressible: the converter definitions never consult it,
exactly as the Python code never tests existence.

Each converter returns the list of observable events it performed (external
subprocess invocations and, for the batch driver, entries into a single-file
converter) together with an `Except` result mirroring the Python exceptions:
`invocationError` is `subprocess.CalledProcessError` (raised by `check=True`
on a non-zero exit), `artifactNotFound` is the `FileNotFoundError` raised by
`convert_ipynb`, and `notADirectory` is `NotADirectoryError`.
-/

namespace PyNbToSrc

/-- Strings are modelled as lists of characters. -/
abbrev Str := List Char

/-- Index of the last occurrence of `c` in the list (Python `str.rfind`),
`none` when absent. -/
def rfindIdx (c : Char) : List Char → Option Nat
  | [] => none
  | a :: as =>
    match rfindIdx c as with
    | some i => some (i + 1)
    | none => if a = c then some 0 else none

/-- `PurePath.suffix`: the part of the name from the last dot on, provided the
last dot is neither the first nor the last character; otherwise empty. -/
def pSuffix (name : Str) : Str :=
  match rfindIdx '.' name with
  | some i => if 0 < i ∧ i < name.length - 1 then name.drop i else []
  | none => []

/-- `PurePath.stem`: the name with `pSuffix` removed. -/
def pStem (name : Str) : Str :=
  match rfindIdx '.' name with
  | some i => if 0 < i ∧ i < name.length - 1 then name.take i else name
  | none => name

/-- `PurePath.with_suffix`: drop the old suffix (if any) and append the new
one. -/
def withSuffixName (name : Str) (suf : Str) : Str :=
  let old := pSuffix name
  if old = [] then name ++ suf else name.take (name.length - old.length) ++ suf

/-- An absolute resolved filesystem path: directory components plus final
name. -/
structure FsPath where
  dir : List Str
  name : Str
deriving DecidableEq, Repr

/-- The components of a path, viewing the whole path as a directory. -/
def comps (p : FsPath) : List Str := p.dir ++ [p.name]

/-- `str(path)` for an absolute POSIX path. -/
def pathToStr (p : FsPath) : Str :=
  ((p.dir ++ [p.name]).map (fun c => '/' :: c)).flatten

/-- `with_suffix` lifted to paths (same directory, new name). -/
def FsPath.withSuffix (p : FsPath) (suf : Str) : FsPath :=
  FsPath.mk p.dir (withSuffixName p.name suf)

/-- `str.replace("\\", "\\\\")`: double every backslash. -/
def escapeBackslash : Str → Str
  | [] => []
  | c :: cs =>
    (if c = '\\' then ['\\', '\\'] else [c]) ++ escapeBackslash cs

/-- `str.replace('"', '\\"')`: put a backslash before every double quote. -/
def escapeQuote : Str → Str
  | [] => []
  | c :: cs =>
    (if c = '"' then ['\\', '"'] else [c]) ++ escapeQuote cs

/-- `_escape_r_string`: escape backslashes, then quotes, for embedding in R
source. -/
def escapeRString (s : Str) : Str := escapeQuote (escapeBackslash s)

/-- Unescaping an R string literal body: `\\` denotes a backslash and `\"` a
double quote. -/
def unescapeRString : Str → Str
  | [] => []
  | [c] => [c]
  | c₁ :: c₂ :: rest =>
    if c₁ = '\\' ∧ (c₂ = '\\' ∨ c₂ = '"') then c₂ :: unescapeRString rest
    else c₁ :: unescapeRString (c₂ :: rest)

/-- The results of the external world's operations during one call: the exit
code the OS returns for an argv (`subprocess.run`), the names in a directory
in filesystem iteration order (`Path.iterdir`; `Path.glob` filters this same
listing), whether a path is a directory (`Path.is_dir`), path resolution
(`Path.resolve`), and plain file existence.  The converters never read
`fileExists`: the Python code performs no local existence check. -/
structure World where
  resolve : FsPath → FsPath
  runExit : List Str → Int
  listDir : List Str → List Str
  isDir : List Str → Bool
  fileExists : List Str → Bool

/-- Which single-file converter a batch entry uses. -/
inductive FileKind
  | ipynb
  | rmd
deriving DecidableEq, Repr

/-- The Python exceptions: `subprocess.CalledProcessError` (with the child's
exit code), the `FileNotFoundError` of `convert_ipynb`, and
`NotADirectoryError`. -/
inductive ConvError
  | invocationError (code : Int)
  | artifactNotFound
  | notADirectory
deriving DecidableEq, Repr

/-- Observable events: an external subprocess invocation with its argv, and
entry into a single-file converter on a path (the batch driver's calls). -/
inductive Event
  | proc (argv : List Str)
  | call (k : FileKind) (p : FsPath)
deriving DecidableEq, Repr

/-- The argv `convert_ipynb` passes to `subprocess.run`. -/
def ipynbArgv (ip : FsPath) : List Str :=
  ["jupyter".data, "nbconvert".data, "--to".data, "script".data,
   pathToStr ip, "--output".data, pStem ip.name]

/-- The predicate of `convert_ipynb`'s scan over `ipynb_path.parent.iterdir()`:
`f.stem == ipynb_path.stem and f.suffix != ".ipynb"`. -/
def scriptMatch (ip : FsPath) (n : Str) : Bool :=
  decide (pStem n = pStem ip.name) && decide (pSuffix n ≠ ".ipynb".data)

/-- `convert_ipynb`: resolve, run `jupyter nbconvert --to script`, then return
the first directory entry sharing the stem with a different suffix, or fail. -/
def convert_ipynb (w : World) (p : FsPath) : List Event × Except ConvError FsPath :=
  let ip := w.resolve p
  let argv := ipynbArgv ip
  if w.runExit argv ≠ 0 then
    ([Event.proc argv], Except.error (ConvError.invocationError (w.runExit argv)))
  else
    match (w.listDir ip.dir).find? (scriptMatch ip) with
    | some n => ([Event.proc argv], Except.ok (FsPath.mk ip.dir n))
    | none => ([Event.proc argv], Except.error ConvError.artifactNotFound)

/-- `KNITR_RMD_TO_R_CONVERSION_COMMAND.format(input_path=..., output_path=...)`. -/
def knitrCommand (inputPath outputPath : Str) : Str :=
  "knitr::purl(input = \"".data ++ inputPath ++
    "\", output = \"".data ++ outputPath ++ "\", documentation = 0)".data

/-- The fixed script extension `convert_rmd` produces. -/
def rExt : Str := ".r".data

/-- The argv `convert_rmd` passes to `subprocess.run`. -/
def rmdArgv (w : World) (p : FsPath) : List Str :=
  let rp := w.resolve p
  let outp := rp.withSuffix rExt
  ["R".data, "-e".data,
   knitrCommand (escapeRString (pathToStr rp)) (escapeRString (pathToStr outp))]

/-- `convert_rmd`: resolve, compute `rmd_path.with_suffix(".r")`, run the
knitr extraction command through `R -e`, and return the output path. -/
def convert_rmd (w : World) (p : FsPath) : List Event × Except ConvError FsPath :=
  let rp := w.resolve p
  let outp := rp.withSuffix rExt
  let argv := rmdArgv w p
  if w.runExit argv ≠ 0 then
    ([Event.proc argv], Except.error (ConvError.invocationError (w.runExit argv)))
  else
    ([Event.proc argv], Except.ok outp)

/-- `ConverterType`. -/
inductive ConverterType
  | IPYNB
  | RMD
  | BOTH
deriving DecidableEq, Repr

/-- `directory.glob("*." ++ ext)` over a listing, on a case-sensitive (POSIX)
filesystem: the names ending in the literal extension, in listing order. -/
def globFilter (names : List Str) (ext : Str) : List Str :=
  names.filter (fun n => decide (ext <:+ n))

/-- The extension of notebook files, as `convert_directory` matches it. -/
def ipynbExt : Str := ".ipynb".data

/-- The extension of R Markdown files, as `convert_directory` matches it. -/
def rmdExt : Str := ".Rmd".data

/-- The batch entries of `convert_directory` on directory `d`: each `.ipynb`
child (when the mode includes notebooks), then each `.Rmd` child (when the
mode includes markdown), in listing order. -/
def dirFileList (w : World) (d : FsPath) (t : ConverterType) :
    List (FileKind × FsPath) :=
  let names := w.listDir (comps d)
  (if t = ConverterType.IPYNB ∨ t = ConverterType.BOTH then
    (globFilter names ipynbExt).map (fun n => (FileKind.ipynb, FsPath.mk (comps d) n))
  else []) ++
  (if t = ConverterType.RMD ∨ t = ConverterType.BOTH then
    (globFilter names rmdExt).map (fun n => (FileKind.rmd, FsPath.mk (comps d) n))
  else [])

/-- One batch entry: record the converter call, then run the corresponding
single-file converter. -/
def convertOne (w : World) (k : FileKind) (p : FsPath) :
    List Event × Except ConvError FsPath :=
  match k with
  | FileKind.ipynb =>
    let r := convert_ipynb w p
    (Event.call FileKind.ipynb p :: r.1, r.2)
  | FileKind.rmd =>
    let r := convert_rmd w p
    (Event.call FileKind.rmd p :: r.1, r.2)

/-- The loop body of `convert_directory`: convert each entry in order,
accumulating `results[file] = converted`; an exception aborts the rest. -/
def convertFiles (w : World) : List (FileKind × FsPath) →
    List Event × Except ConvError (List (FsPath × FsPath))
  | [] => ([], Except.ok [])
  | x :: rest =>
    let r := convertOne w x.1 x.2
    match r.2 with
    | Except.error e => (r.1, Except.error e)
    | Except.ok out =>
      let rs := convertFiles w rest
      (r.1 ++ rs.1, rs.2.map (fun m => (x.2, out) :: m))

/-- `convert_directory`: resolve, require a directory, then convert every
globbed child with the converters the mode selects. -/
def convert_directory (w : World) (dir : FsPath) (t : ConverterType) :
    List Event × Except ConvError (List (FsPath × FsPath)) :=
  let d := w.resolve dir
  if w.isDir (comps d) = false then
    ([], Except.error ConvError.notADirectory)
  else
    convertFiles w (dirFileList w d t)

/-- The converter calls among a list of events, in order. -/
def callsOf (es : List Event) : List (FileKind × FsPath) :=
  es.filterMap (fun e =>
    match e with
    | Event.call k p => some (k, p)
    | Event.proc _ => none)

instance {ε α : Type} [DecidableEq ε] [DecidableEq α] : DecidableEq (Except ε α) :=
  fun a b =>
    match a, b with
    | Except.error e, Except.error f =>
      if h : e = f then isTrue (by rw [h]) else isFalse (fun hh => h (by injection hh))
    | Except.error _, Except.ok _ => isFalse (fun hh => Except.noConfusion hh)
    | Except.ok _, Except.error _ => isFalse (fun hh => Except.noConfusion hh)
    | Except.ok x, Except.ok y =>
      if h : x = y then isTrue (by rw [h]) else isFalse (fun hh => h (by injection hh))

/-! ## The escaping function (claim C2) -/

theorem escapeRString_cons (c : Char) (s : Str) :
    escapeRString (c :: s) =
      (if c = '\\' then ['\\', '\\']
       else if c = '"' then ['\\', '"'] else [c]) ++ escapeRString s := by
  by_cases hb : c = '\\'
  · subst hb
    simp [escapeRString, escapeBackslash, escapeQuote]
  · by_cases hq : c = '"'
    · subst hq
      simp [escapeRString, escapeBackslash, escapeQuote]
    · simp [escapeRString, escapeBackslash, escapeQuote, hb, hq]

theorem escapeRString_eq_nil (s : Str) (h : escapeRString s = []) : s = [] := by
  cases s with
  | nil => rfl
  | cons c cs =>
    rw [escapeRString_cons] at h
    by_cases hb : c = '\\' <;> by_cases hq : c = '"' <;> simp [hb, hq] at h

theorem unescape_cons_other (c : Char) (s : Str) (hb : c ≠ '\\') :
    unescapeRString (c :: s) = c :: unescapeRString s := by
  cases s with
  | nil => rfl
  | cons d ds => simp [unescapeRString, hb]

theorem unescape_cons_esc (c : Char) (s : Str) (h : c = '\\' ∨ c = '"') :
    unescapeRString ('\\' :: c :: s) = c :: unescapeRString s := by
  have hc : ('\\' = '\\' ∧ (c = '\\' ∨ c = '"')) := ⟨rfl, h⟩
  simp [unescapeRString, hc]

/-- C2: the escaping used for embedding paths in the generated R command is
invertible on its image: unescaping (reading `\\` as a backslash and `\"` as
a quote) recovers every original string, including ones with quotes or
backslashes. -/
theorem escape_r_string_roundtrip (s : Str) :
    unescapeRString (escapeRString s) = s := by
  induction s with
  | nil => rfl
  | cons c cs ih =>
    rw [escapeRString_cons]
    by_cases hb : c = '\\'
    · subst hb
      simp only [if_pos rfl, if_true, eq_self_iff_true, List.cons_append, List.nil_append]
      rw [unescape_cons_esc '\\' (escapeRString cs) (Or.inl rfl), ih]
    · by_cases hq : c = '"'
      · subst hq
        simp only [if_neg hb, if_pos rfl, if_true, eq_self_iff_true, List.cons_append, List.nil_append]
        rw [unescape_cons_esc '"' (escapeRString cs) (Or.inr rfl), ih]
      · simp only [if_neg hb, if_neg hq, List.cons_append, List.nil_append]
        rw [unescape_cons_other c (escapeRString cs) hb, ih]

/-! ## Path-name lemmas (claim C1) -/

theorem rfindIdx_append (c : Char) (xs ys : List Char) :
    rfindIdx c (xs ++ ys) =
      match rfindIdx c ys with
      | some i => some (xs.length + i)
      | none => rfindIdx c xs := by
  induction xs with
  | nil => cases h : rfindIdx c ys <;> simp [h, rfindIdx]
  | cons a as ih =>
    cases h : rfindIdx c ys with
    | none =>
      rw [h] at ih
      dsimp only at ih ⊢
      rw [List.cons_append, rfindIdx, ih]
      conv_rhs => rw [rfindIdx]
    | some i =>
      rw [h] at ih
      dsimp only at ih ⊢
      rw [List.cons_append, rfindIdx, ih]
      dsimp only [List.length_cons]
      exact congrArg some (by omega)

theorem pSuffix_spec (n : Str) (h : pSuffix n ≠ []) :
    ∃ i, rfindIdx '.' n = some i ∧ 0 < i ∧ i < n.length - 1 ∧
      pSuffix n = n.drop i ∧ pStem n = n.take i := by
  cases hr : rfindIdx '.' n with
  | none =>
    exfalso
    apply h
    unfold pSuffix
    rw [hr]
  | some i =>
    by_cases hc : 0 < i ∧ i < n.length - 1
    · refine ⟨i, rfl, hc.1, hc.2, ?_, ?_⟩
      · unfold pSuffix
        rw [hr]
        dsimp only
        rw [if_pos hc]
      · unfold pStem
        rw [hr]
        dsimp only
        rw [if_pos hc]
    · exfalso
      apply h
      unfold pSuffix
      rw [hr]
      dsimp only
      rw [if_neg hc]

theorem withSuffixName_of_suffix (n suf : Str) (h : pSuffix n ≠ []) :
    withSuffixName n suf = pStem n ++ suf := by
  obtain ⟨i, _, _, hlt, hdrop, htake⟩ := pSuffix_spec n h
  unfold withSuffixName
  rw [if_neg h, hdrop, htake, List.length_drop]
  congr 1
  congr 1
  omega

theorem pStem_ne_nil (n : Str) (h : pSuffix n ≠ []) : pStem n ≠ [] := by
  obtain ⟨i, _, hpos, hlt, _, htake⟩ := pSuffix_spec n h
  rw [htake]
  intro hnil
  have := congrArg List.length hnil
  rw [List.length_take] at this
  simp only [List.length_nil] at this
  omega

theorem stem_dot_r_append (st : Str) (hst : st ≠ []) :
    pStem (st ++ ['.', 'r']) = st ∧ pSuffix (st ++ ['.', 'r']) = ['.', 'r'] := by
  have hfind : rfindIdx '.' (st ++ ['.', 'r']) = some st.length := by
    rw [rfindIdx_append]
    rfl
  have hpos : 0 < st.length := List.length_pos.mpr hst
  have hcond : 0 < st.length ∧ st.length < (st ++ ['.', 'r']).length - 1 := by
    constructor
    · exact hpos
    · rw [List.length_append]
      simp
  constructor
  · unfold pStem
    rw [hfind]
    dsimp only
    rw [if_pos hcond, List.take_left]
  · unfold pSuffix
    rw [hfind]
    dsimp only
    rw [if_pos hcond, List.drop_left]

/-- C1: for every `.Rmd` input, `convert_rmd` returns exactly the resolved
input path with its extension replaced by the fixed script extension `.r`
(same parent directory, same stem).  The output path is a function of the
resolved input alone — the final conjunct shows that under every behaviour of
the external tool and filesystem the successful result is this same path —
and on a zero exit it is returned unconditionally, with no existence
re-check. -/
theorem convert_rmd_output_path (w : World) (p : FsPath)
    (hsuf : pSuffix (w.resolve p).name = ".Rmd".data)
    (hok : w.runExit (rmdArgv w p) = 0) :
    (convert_rmd w p).2 = Except.ok ((w.resolve p).withSuffix rExt) ∧
    ((w.resolve p).withSuffix rExt).dir = (w.resolve p).dir ∧
    pStem ((w.resolve p).withSuffix rExt).name = pStem (w.resolve p).name ∧
    pSuffix ((w.resolve p).withSuffix rExt).name = rExt ∧
    (∀ re ld idir fe,
      (convert_rmd (World.mk w.resolve re ld idir fe) p).2 =
          Except.error (ConvError.invocationError
            (re (rmdArgv (World.mk w.resolve re ld idir fe) p))) ∨
      (convert_rmd (World.mk w.resolve re ld idir fe) p).2 =
          Except.ok ((w.resolve p).withSuffix rExt)) := by
  have hne : pSuffix (w.resolve p).name ≠ [] := by
    rw [hsuf]; decide
  have hws : withSuffixName (w.resolve p).name rExt =
      pStem (w.resolve p).name ++ ['.', 'r'] :=
    withSuffixName_of_suffix (w.resolve p).name rExt hne
  have hsr := stem_dot_r_append (pStem (w.resolve p).name)
    (pStem_ne_nil (w.resolve p).name hne)
  refine ⟨?_, rfl, ?_, ?_, ?_⟩
  · simp [convert_rmd, hok]
  · show pStem (withSuffixName (w.resolve p).name rExt) = pStem (w.resolve p).name
    rw [hws, hsr.1]
  · show pSuffix (withSuffixName (w.resolve p).name rExt) = rExt
    rw [hws, hsr.2]
    rfl
  · intro re ld idir fe
    by_cases h : re (rmdArgv (World.mk w.resolve re ld idir fe) p) = 0
    · right
      simp [convert_rmd, h]
    · left
      simp [convert_rmd, h]

/-! ## The notebook converter (claims C4, C5, C8, C9) -/

theorem convert_ipynb_nonzero (w : World) (p : FsPath)
    (h : w.runExit (ipynbArgv (w.resolve p)) ≠ 0) :
    convert_ipynb w p = ([Event.proc (ipynbArgv (w.resolve p))],
      Except.error (ConvError.invocationError
        (w.runExit (ipynbArgv (w.resolve p))))) := by
  simp [convert_ipynb, h]

theorem convert_ipynb_zero (w : World) (p : FsPath)
    (h : w.runExit (ipynbArgv (w.resolve p)) = 0) :
    convert_ipynb w p =
      ([Event.proc (ipynbArgv (w.resolve p))],
        match (w.listDir (w.resolve p).dir).find? (scriptMatch (w.resolve p)) with
        | some n => Except.ok (FsPath.mk (w.resolve p).dir n)
        | none => Except.error ConvError.artifactNotFound) := by
  cases hf : (w.listDir (w.resolve p).dir).find? (scriptMatch (w.resolve p)) <;>
    simp [convert_ipynb, h, hf]

theorem convert_ipynb_trace (w : World) (p : FsPath) :
    (convert_ipynb w p).1 = [Event.proc (ipynbArgv (w.resolve p))] := by
  by_cases h : w.runExit (ipynbArgv (w.resolve p)) = 0
  · rw [convert_ipynb_zero w p h]
  · rw [convert_ipynb_nonzero w p h]

theorem convert_rmd_trace (w : World) (p : FsPath) :
    (convert_rmd w p).1 = [Event.proc (rmdArgv w p)] := by
  by_cases h : w.runExit (rmdArgv w p) = 0 <;> simp [convert_rmd, h]

theorem scriptMatch_iff (ip : FsPath) (n : Str) :
    scriptMatch ip n = true ↔
      (pStem n = pStem ip.name ∧ pSuffix n ≠ ".ipynb".data) := by
  simp [scriptMatch]

/-- C4: `convert_ipynb` fails with the invocation error exactly when the
export subprocess exits non-zero, fails with the artifact-not-found error
exactly when the subprocess succeeds but no entry of the input's parent
directory shares the input's stem with a suffix other than `.ipynb`, and
these are its only failure modes. -/
theorem convert_ipynb_failure_modes (w : World) (p : FsPath) :
    (∀ c : Int, (convert_ipynb w p).2 =
        Except.error (ConvError.invocationError c) ↔
      (w.runExit (ipynbArgv (w.resolve p)) = c ∧ c ≠ 0)) ∧
    ((convert_ipynb w p).2 = Except.error ConvError.artifactNotFound ↔
      (w.runExit (ipynbArgv (w.resolve p)) = 0 ∧
        ∀ n ∈ w.listDir (w.resolve p).dir,
          ¬(pStem n = pStem (w.resolve p).name ∧
            pSuffix n ≠ ".ipynb".data))) ∧
    (∀ e, (convert_ipynb w p).2 = Except.error e →
      e = ConvError.invocationError (w.runExit (ipynbArgv (w.resolve p))) ∨
      e = ConvError.artifactNotFound) := by
  by_cases h : w.runExit (ipynbArgv (w.resolve p)) = 0
  · cases hf : (w.listDir (w.resolve p).dir).find? (scriptMatch (w.resolve p)) with
    | some n =>
      have he : (convert_ipynb w p).2 =
          Except.ok (FsPath.mk (w.resolve p).dir n) := by
        simp only [convert_ipynb_zero w p h, hf]
      refine ⟨?_, ?_, ?_⟩
      · intro c
        rw [he]
        constructor
        · intro hh
          exact absurd hh (by simp)
        · rintro ⟨hc, hne⟩
          exact absurd (hc.symm.trans h) hne
      · rw [he]
        constructor
        · intro hh
          exact absurd hh (by simp)
        · rintro ⟨_, hall⟩
          have hmem := List.mem_of_find?_eq_some hf
          have hsm := (scriptMatch_iff (w.resolve p) n).mp (List.find?_some hf)
          exact absurd hsm (hall n hmem)
      · intro e he'
        rw [he] at he'
        exact absurd he' (by simp)
    | none =>
      have he : (convert_ipynb w p).2 =
          Except.error ConvError.artifactNotFound := by
        simp only [convert_ipynb_zero w p h, hf]
      refine ⟨?_, ?_, ?_⟩
      · intro c
        rw [he]
        constructor
        · intro hh
          exact absurd hh (by simp)
        · rintro ⟨hc, hne⟩
          exact absurd (hc.symm.trans h) hne
      · rw [he]
        constructor
        · intro _
          refine ⟨h, fun n hn hcontra => ?_⟩
          have := List.find?_eq_none.mp hf n hn
          exact this ((scriptMatch_iff (w.resolve p) n).mpr hcontra)
        · intro _
          rfl
      · intro e he'
        rw [he] at he'
        right
        injection he' with h1
        exact h1.symm
  · have he : (convert_ipynb w p).2 =
        Except.error (ConvError.invocationError
          (w.runExit (ipynbArgv (w.resolve p)))) := by
      rw [convert_ipynb_nonzero w p h]
    refine ⟨?_, ?_, ?_⟩
    · intro c
      rw [he]
      constructor
      · intro hh
        injection hh with h1
        injection h1 with h2
        refine ⟨h2, ?_⟩
        rw [← h2]
        exact h
      · rintro ⟨hc, _⟩
        rw [hc]
    · rw [he]
      constructor
      · intro hh
        injection hh with h1
        exact absurd h1 (by simp)
      · rintro ⟨hzero, _⟩
        exact absurd hzero h
    · intro e he'
      rw [he] at he'
      left
      injection he' with h1
      exact h1.symm

/-- C5: whenever `convert_ipynb` succeeds, the returned path lies in the
resolved input's directory, its stem equals the input's stem, and its suffix
differs from `.ipynb`. -/
theorem convert_ipynb_success_shape (w : World) (p : FsPath) (out : FsPath)
    (h : (convert_ipynb w p).2 = Except.ok out) :
    out.dir = (w.resolve p).dir ∧ pStem out.name = pStem (w.resolve p).name ∧
      pSuffix out.name ≠ ".ipynb".data := by
  by_cases hz : w.runExit (ipynbArgv (w.resolve p)) = 0
  · cases hf : (w.listDir (w.resolve p).dir).find? (scriptMatch (w.resolve p)) with
    | some n =>
      simp only [convert_ipynb_zero w p hz, hf] at h
      obtain rfl : FsPath.mk (w.resolve p).dir n = out := by injection h
      have hsm := (scriptMatch_iff (w.resolve p) n).mp (List.find?_some hf)
      exact ⟨rfl, hsm.1, hsm.2⟩
    | none =>
      simp only [convert_ipynb_zero w p hz, hf] at h
      exact absurd h (by simp)
  · rw [convert_ipynb_nonzero w p hz] at h
    exact absurd h (by simp)

/-- C9 (amended): a successful `convert_ipynb` returns the first entry of the
parent directory's listing, in filesystem iteration order, whose stem matches
the input's with a suffix other than `.ipynb` — not the lexicographically
first candidate. -/
theorem convert_ipynb_first_iteration_candidate (w : World) (p : FsPath)
    (out : FsPath) :
    (convert_ipynb w p).2 = Except.ok out ↔
      (w.runExit (ipynbArgv (w.resolve p)) = 0 ∧
       (w.listDir (w.resolve p).dir).find? (scriptMatch (w.resolve p)) =
         some out.name ∧
       out.dir = (w.resolve p).dir) := by
  obtain ⟨od, onm⟩ := out
  by_cases hz : w.runExit (ipynbArgv (w.resolve p)) = 0
  · cases hf : (w.listDir (w.resolve p).dir).find? (scriptMatch (w.resolve p)) with
    | some n =>
      simp only [convert_ipynb_zero w p hz, hf]
      constructor
      · intro hh
        injection hh with h1
        injection h1 with hdir hname
        exact ⟨hz, by rw [hname], hdir.symm⟩
      · rintro ⟨_, hsome, hdir⟩
        injection hsome with hn
        rw [hn, hdir]
    | none =>
      simp only [convert_ipynb_zero w p hz, hf]
      constructor
      · intro hh
        exact absurd hh (by simp)
      · rintro ⟨_, hsome, _⟩
        exact absurd hsome (by simp)
  · rw [convert_ipynb_nonzero w p hz]
    constructor
    · intro hh
      exact absurd hh (by simp)
    · rintro ⟨hzero, _, _⟩
      exact absurd hzero hz

/-- Directory listing `x.r` before `x.py`: one possible filesystem iteration
order of the same directory as `iterWorldB`. -/
def iterWorldA : World :=
  World.mk id (fun _ => 0) (fun _ => ["x.r".data, "x.py".data])
    (fun _ => true) (fun _ => true)

/-- The same directory contents listed `x.py` before `x.r`. -/
def iterWorldB : World :=
  World.mk id (fun _ => 0) (fun _ => ["x.py".data, "x.r".data])
    (fun _ => true) (fun _ => true)

/-- The notebook input exhibiting the iteration-order dependence. -/
def xNotebook : FsPath := FsPath.mk ["d".data] "x.ipynb".data

/-- C9 counterexample: with two candidates `x.py` and `x.r` for input
`x.ipynb`, `convert_ipynb` returns `x.r` when the filesystem lists it first,
although `x.py` is also a candidate and lexicographically smaller; permuting
the same listing changes the answer, so the result is not independent of the
iteration order. -/
theorem convert_ipynb_not_lexicographic :
    (convert_ipynb iterWorldA xNotebook).2 =
      Except.ok (FsPath.mk ["d".data] "x.r".data) ∧
    scriptMatch (iterWorldA.resolve xNotebook) "x.py".data = true ∧
    "x.py".data ∈ iterWorldA.listDir (iterWorldA.resolve xNotebook).dir ∧
    List.Lex (· < ·) "x.py".data "x.r".data ∧
    List.Perm (iterWorldA.listDir (iterWorldA.resolve xNotebook).dir)
      (iterWorldB.listDir (iterWorldB.resolve xNotebook).dir) ∧
    (convert_ipynb iterWorldA xNotebook).2 ≠
      (convert_ipynb iterWorldB xNotebook).2 := by
  refine ⟨by decide, by decide, by decide, by decide, by decide, by decide⟩

/-- C8: on any filesystem where the input does not exist, no local existence
check intervenes: the subprocess is invoked (the single observable event) and
its non-zero exit — the tool's behaviour on a missing input — surfaces as the
invocation error for both converters.  The last two conjuncts state that the
results do not depend on the `fileExists` oracle at all. -/
theorem nonexistent_input_invocation_error (w : World) (pnb prmd : FsPath)
    (_hnb : w.fileExists (comps (w.resolve pnb)) = false)
    (hnbrun : w.runExit (ipynbArgv (w.resolve pnb)) ≠ 0)
    (_hrmd : w.fileExists (comps (w.resolve prmd)) = false)
    (hrmdrun : w.runExit (rmdArgv w prmd) ≠ 0) :
    (convert_ipynb w pnb).2 =
      Except.error (ConvError.invocationError
        (w.runExit (ipynbArgv (w.resolve pnb)))) ∧
    (convert_ipynb w pnb).1 = [Event.proc (ipynbArgv (w.resolve pnb))] ∧
    (convert_rmd w prmd).2 =
      Except.error (ConvError.invocationError (w.runExit (rmdArgv w prmd))) ∧
    (convert_rmd w prmd).1 = [Event.proc (rmdArgv w prmd)] ∧
    (∀ fe, convert_ipynb (World.mk w.resolve w.runExit w.listDir w.isDir fe) pnb =
      convert_ipynb w pnb) ∧
    (∀ fe, convert_rmd (World.mk w.resolve w.runExit w.listDir w.isDir fe) prmd =
      convert_rmd w prmd) := by
  refine ⟨?_, convert_ipynb_trace w pnb, ?_, convert_rmd_trace w prmd,
    fun fe => rfl, fun fe => rfl⟩
  · rw [convert_ipynb_nonzero w pnb hnbrun]
  · simp [convert_rmd, hrmdrun]

/-- A world where every subprocess exits 1 and no file exists. -/
def failWorld : World :=
  World.mk id (fun _ => 1) (fun _ => []) (fun _ => true) (fun _ => false)

/-- A notebook input path for concrete instantiations. -/
def aNotebook : FsPath := FsPath.mk ["d".data] "a.ipynb".data

/-- A markdown input path for concrete instantiations. -/
def aMarkdown : FsPath := FsPath.mk ["d".data] "a.Rmd".data

theorem nonexistent_input_invocation_error_witness :
    (convert_ipynb failWorld aNotebook).2 =
      Except.error (ConvError.invocationError
        (failWorld.runExit (ipynbArgv (failWorld.resolve aNotebook)))) :=
  (nonexistent_input_invocation_error failWorld aNotebook aMarkdown rfl
    (by decide) rfl (by decide)).1

/-! ## The directory batch converter (claims C3, C6, C7, C10) -/

theorem convertOne_trace (w : World) (k : FileKind) (p : FsPath) :
    (convertOne w k p).1 = [Event.call k p,
      Event.proc (match k with
        | FileKind.ipynb => ipynbArgv (w.resolve p)
        | FileKind.rmd => rmdArgv w p)] := by
  cases k <;> simp [convertOne, convert_ipynb_trace, convert_rmd_trace]

theorem callsOf_append (a b : List Event) :
    callsOf (a ++ b) = callsOf a ++ callsOf b := by
  simp [callsOf, List.filterMap_append]

theorem callsOf_convertOne (w : World) (k : FileKind) (p : FsPath) :
    callsOf (convertOne w k p).1 = [(k, p)] := by
  rw [convertOne_trace]
  simp [callsOf]

theorem convertFiles_cons (w : World) (f : FileKind × FsPath)
    (rest : List (FileKind × FsPath)) :
    convertFiles w (f :: rest) =
      match (convertOne w f.1 f.2).2 with
      | Except.error e => ((convertOne w f.1 f.2).1, Except.error e)
      | Except.ok out =>
        ((convertOne w f.1 f.2).1 ++ (convertFiles w rest).1,
         (convertFiles w rest).2.map (fun m => (f.2, out) :: m)) := rfl

theorem convertFiles_cons_error (w : World) (f : FileKind × FsPath)
    (rest : List (FileKind × FsPath)) (e : ConvError)
    (h : (convertOne w f.1 f.2).2 = Except.error e) :
    convertFiles w (f :: rest) = ((convertOne w f.1 f.2).1, Except.error e) := by
  rw [convertFiles_cons, h]

theorem convertFiles_cons_ok (w : World) (f : FileKind × FsPath)
    (rest : List (FileKind × FsPath)) (out : FsPath)
    (h : (convertOne w f.1 f.2).2 = Except.ok out) :
    convertFiles w (f :: rest) =
      ((convertOne w f.1 f.2).1 ++ (convertFiles w rest).1,
       (convertFiles w rest).2.map (fun m => (f.2, out) :: m)) := by
  rw [convertFiles_cons, h]

theorem callsOf_convertFiles_mem (w : World) (fs : List (FileKind × FsPath)) :
    ∀ x ∈ callsOf (convertFiles w fs).1, x ∈ fs := by
  induction fs with
  | nil =>
    intro x hx
    simp [convertFiles, callsOf] at hx
  | cons f rest ih =>
    intro x hx
    cases hr : (convertOne w f.1 f.2).2 with
    | error e =>
      rw [convertFiles_cons_error w f rest e hr] at hx
      dsimp only at hx
      rw [callsOf_convertOne] at hx
      rw [List.mem_singleton] at hx
      rw [hx]
      exact List.mem_cons_self f rest
    | ok out =>
      rw [convertFiles_cons_ok w f rest out hr] at hx
      dsimp only at hx
      rw [callsOf_append, callsOf_convertOne] at hx
      rcases List.mem_append.mp hx with h1 | h2
      · rw [List.mem_singleton] at h1
        rw [h1]
        exact List.mem_cons_self f rest
      · exact List.mem_cons_of_mem f (ih x h2)

theorem convertFiles_ok_calls (w : World) (fs : List (FileKind × FsPath))
    (m : List (FsPath × FsPath)) (h : (convertFiles w fs).2 = Except.ok m) :
    callsOf (convertFiles w fs).1 = fs := by
  induction fs generalizing m with
  | nil => simp [convertFiles, callsOf]
  | cons f rest ih =>
    cases hr : (convertOne w f.1 f.2).2 with
    | error e =>
      rw [convertFiles_cons_error w f rest e hr] at h
      exact absurd h (by simp)
    | ok out =>
      rw [convertFiles_cons_ok w f rest out hr] at h ⊢
      dsimp only at h ⊢
      cases hrest : (convertFiles w rest).2 with
      | error e =>
        rw [hrest] at h
        exact absurd h (by simp [Except.map])
      | ok m' =>
        rw [callsOf_append, callsOf_convertOne, ih m' hrest]
        rfl

theorem convertFiles_ok_keys (w : World) (fs : List (FileKind × FsPath))
    (m : List (FsPath × FsPath)) (h : (convertFiles w fs).2 = Except.ok m) :
    m.map Prod.fst = fs.map Prod.snd := by
  induction fs generalizing m with
  | nil =>
    have h0 : (convertFiles w ([] : List (FileKind × FsPath))).2 =
        Except.ok ([] : List (FsPath × FsPath)) := rfl
    rw [h0] at h
    injection h with h1
    rw [← h1]
    rfl
  | cons f rest ih =>
    cases hr : (convertOne w f.1 f.2).2 with
    | error e =>
      rw [convertFiles_cons_error w f rest e hr] at h
      exact absurd h (by simp)
    | ok out =>
      rw [convertFiles_cons_ok w f rest out hr] at h
      dsimp only at h
      cases hrest : (convertFiles w rest).2 with
      | error e =>
        rw [hrest] at h
        exact absurd h (by simp [Except.map])
      | ok m' =>
        rw [hrest] at h
        simp only [Except.map] at h
        injection h with h1
        rw [← h1]
        simp [ih m' hrest]

theorem convertFiles_fail (w : World) (k : FileKind) (p : FsPath) (e : ConvError)
    (post : List (FileKind × FsPath))
    (hfail : (convertOne w k p).2 = Except.error e) :
    ∀ pre, (∀ x ∈ pre, ∃ o, (convertOne w x.1 x.2).2 = Except.ok o) →
      convertFiles w (pre ++ (k, p) :: post) =
        ((pre.map (fun x => (convertOne w x.1 x.2).1)).flatten ++
          (convertOne w k p).1, Except.error e) := by
  intro pre
  induction pre with
  | nil =>
    intro _
    rw [List.nil_append, convertFiles_cons_error w (k, p) post e hfail]
    simp
  | cons f pre' ih =>
    intro hpre
    obtain ⟨o, ho⟩ := hpre f (List.mem_cons_self f pre')
    rw [List.cons_append, convertFiles_cons_ok w f (pre' ++ (k, p) :: post) o ho,
      ih (fun x hx => hpre x (List.mem_cons_of_mem f hx))]
    simp [Except.map, List.append_assoc]

/-- C6: when the resolved target is not a directory, `convert_directory`
fails with `NotADirectoryError` in every mode, with an empty event trace —
before any tool invocation and before any single-file converter call. -/
theorem convert_directory_not_a_directory (w : World) (dir : FsPath)
    (t : ConverterType) (h : w.isDir (comps (w.resolve dir)) = false) :
    convert_directory w dir t = ([], Except.error ConvError.notADirectory) := by
  simp [convert_directory, h]

/-- A world whose directory test always fails. -/
def noDirWorld : World :=
  World.mk id (fun _ => 0) (fun _ => []) (fun _ => false) (fun _ => true)

theorem convert_directory_not_a_directory_witness :
    convert_directory noDirWorld aNotebook ConverterType.BOTH =
      ([], Except.error ConvError.notADirectory) :=
  convert_directory_not_a_directory noDirWorld aNotebook ConverterType.BOTH rfl

/-- C7: the batch is fail-fast.  If every entry before some entry succeeds
and that entry's conversion fails with `e`, then `convert_directory` fails
with exactly `e`, and its event trace is the successful entries' events
followed by the failing entry's — no later file is touched and no partial
mapping is returned. -/
theorem convert_directory_fail_fast (w : World) (dir : FsPath)
    (t : ConverterType) (pre post : List (FileKind × FsPath)) (k : FileKind)
    (p : FsPath) (e : ConvError)
    (hdir : w.isDir (comps (w.resolve dir)) = true)
    (hsplit : dirFileList w (w.resolve dir) t = pre ++ (k, p) :: post)
    (hpre : ∀ x ∈ pre, ∃ o, (convertOne w x.1 x.2).2 = Except.ok o)
    (hfail : (convertOne w k p).2 = Except.error e) :
    (convert_directory w dir t).2 = Except.error e ∧
    (convert_directory w dir t).1 =
      (pre.map (fun x => (convertOne w x.1 x.2).1)).flatten ++
        (convertOne w k p).1 := by
  have hcd : convert_directory w dir t =
      convertFiles w (dirFileList w (w.resolve dir) t) := by
    simp [convert_directory, hdir]
  rw [hcd, hsplit, convertFiles_fail w k p e post hfail pre hpre]
  exact ⟨rfl, rfl⟩

/-- A directory `d` holding `a.ipynb`, `b.ipynb` and `a.py`, on which the
export tool fails exactly for `b.ipynb`. -/
def batchFailWorld : World :=
  World.mk id
    (fun argv =>
      if pathToStr (FsPath.mk ["d".data] "b.ipynb".data) ∈ argv then 1 else 0)
    (fun _ => ["a.ipynb".data, "b.ipynb".data, "a.py".data])
    (fun _ => true) (fun _ => true)

/-- The directory input for the fail-fast witness. -/
def dDir : FsPath := FsPath.mk [] "d".data

theorem convert_directory_fail_fast_witness :
    (convert_directory batchFailWorld dDir ConverterType.IPYNB).2 =
      Except.error (ConvError.invocationError 1) ∧
    (convert_directory batchFailWorld dDir ConverterType.IPYNB).1 =
      (([(FileKind.ipynb, FsPath.mk ["d".data] "a.ipynb".data)].map
          (fun x => (convertOne batchFailWorld x.1 x.2).1)).flatten ++
        (convertOne batchFailWorld FileKind.ipynb
          (FsPath.mk ["d".data] "b.ipynb".data)).1) :=
  convert_directory_fail_fast batchFailWorld dDir ConverterType.IPYNB
    [(FileKind.ipynb, FsPath.mk ["d".data] "a.ipynb".data)] []
    FileKind.ipynb (FsPath.mk ["d".data] "b.ipynb".data)
    (ConvError.invocationError 1) rfl (by decide)
    (by
      intro x hx
      rw [List.mem_singleton] at hx
      rw [hx]
      exact ⟨FsPath.mk ["d".data] "a.py".data, by decide⟩)
    (by decide)

theorem convert_directory_isDir (w : World) (dir : FsPath) (t : ConverterType)
    (h : w.isDir (comps (w.resolve dir)) = true) :
    convert_directory w dir t =
      convertFiles w (dirFileList w (w.resolve dir) t) := by
  simp [convert_directory, h]

theorem dirFileList_IPYNB (w : World) (d : FsPath) :
    dirFileList w d ConverterType.IPYNB =
      (globFilter (w.listDir (comps d)) ipynbExt).map
        (fun n => (FileKind.ipynb, FsPath.mk (comps d) n)) := by
  simp [dirFileList]

theorem dirFileList_RMD (w : World) (d : FsPath) :
    dirFileList w d ConverterType.RMD =
      (globFilter (w.listDir (comps d)) rmdExt).map
        (fun n => (FileKind.rmd, FsPath.mk (comps d) n)) := by
  simp [dirFileList]

theorem dirFileList_BOTH (w : World) (d : FsPath) :
    dirFileList w d ConverterType.BOTH =
      (globFilter (w.listDir (comps d)) ipynbExt).map
        (fun n => (FileKind.ipynb, FsPath.mk (comps d) n)) ++
      (globFilter (w.listDir (comps d)) rmdExt).map
        (fun n => (FileKind.rmd, FsPath.mk (comps d) n)) := by
  simp [dirFileList]

theorem dirFileList_BOTH_nodup (w : World) (d : FsPath)
    (hnd : (w.listDir (comps d)).Nodup) :
    (dirFileList w d ConverterType.BOTH).Nodup := by
  rw [dirFileList_BOTH]
  have hinj1 : Function.Injective
      (fun n => ((FileKind.ipynb, FsPath.mk (comps d) n) : FileKind × FsPath)) := by
    intro a b hab
    simpa using hab
  have hinj2 : Function.Injective
      (fun n => ((FileKind.rmd, FsPath.mk (comps d) n) : FileKind × FsPath)) := by
    intro a b hab
    simpa using hab
  refine List.Nodup.append ((List.Nodup.filter _ hnd).map hinj1)
    ((List.Nodup.filter _ hnd).map hinj2) ?_
  intro x hx1 hx2
  rw [List.mem_map] at hx1 hx2
  obtain ⟨a, _, ha⟩ := hx1
  obtain ⟨b, _, hb⟩ := hx2
  rw [← ha] at hb
  injection hb with h1
  exact absurd h1 (by decide)

/-- C3: with mode `IPYNB` the markdown converter is never called, and with
mode `RMD` the notebook converter is never called.  With mode `BOTH`, a
successful run calls the notebook converter on the `.ipynb` children and
then the markdown converter on the `.Rmd` children: every matching child is
called, and — when the directory listing has no duplicate names — no child
is called twice, i.e. exactly one single-file conversion per matching
file. -/
theorem convert_directory_modes (w : World) (dir : FsPath) :
    (∀ q, (FileKind.rmd, q) ∉
      callsOf (convert_directory w dir ConverterType.IPYNB).1) ∧
    (∀ q, (FileKind.ipynb, q) ∉
      callsOf (convert_directory w dir ConverterType.RMD).1) ∧
    (∀ m, (convert_directory w dir ConverterType.BOTH).2 = Except.ok m →
      callsOf (convert_directory w dir ConverterType.BOTH).1 =
        (globFilter (w.listDir (comps (w.resolve dir))) ipynbExt).map
          (fun n => (FileKind.ipynb, FsPath.mk (comps (w.resolve dir)) n)) ++
        (globFilter (w.listDir (comps (w.resolve dir))) rmdExt).map
          (fun n => (FileKind.rmd, FsPath.mk (comps (w.resolve dir)) n)) ∧
      (∀ n ∈ w.listDir (comps (w.resolve dir)), ipynbExt <:+ n →
        (FileKind.ipynb, FsPath.mk (comps (w.resolve dir)) n) ∈
          callsOf (convert_directory w dir ConverterType.BOTH).1) ∧
      (∀ n ∈ w.listDir (comps (w.resolve dir)), rmdExt <:+ n →
        (FileKind.rmd, FsPath.mk (comps (w.resolve dir)) n) ∈
          callsOf (convert_directory w dir ConverterType.BOTH).1) ∧
      ((w.listDir (comps (w.resolve dir))).Nodup →
        (callsOf (convert_directory w dir ConverterType.BOTH).1).Nodup)) := by
  refine ⟨?_, ?_, ?_⟩
  · intro q hq
    cases hd : w.isDir (comps (w.resolve dir)) with
    | false =>
      rw [convert_directory_not_a_directory w dir _ hd] at hq
      simp [callsOf] at hq
    | true =>
      rw [convert_directory_isDir w dir _ hd] at hq
      have hmem := callsOf_convertFiles_mem w _ _ hq
      rw [dirFileList_IPYNB, List.mem_map] at hmem
      obtain ⟨n, _, hn⟩ := hmem
      injection hn with h1
      exact absurd h1 (by decide)
  · intro q hq
    cases hd : w.isDir (comps (w.resolve dir)) with
    | false =>
      rw [convert_directory_not_a_directory w dir _ hd] at hq
      simp [callsOf] at hq
    | true =>
      rw [convert_directory_isDir w dir _ hd] at hq
      have hmem := callsOf_convertFiles_mem w _ _ hq
      rw [dirFileList_RMD, List.mem_map] at hmem
      obtain ⟨n, _, hn⟩ := hmem
      injection hn with h1
      exact absurd h1 (by decide)
  · intro m hm
    cases hd : w.isDir (comps (w.resolve dir)) with
    | false =>
      rw [convert_directory_not_a_directory w dir _ hd] at hm
      exact absurd hm (by simp)
    | true =>
      rw [convert_directory_isDir w dir _ hd] at hm ⊢
      have hcalls := convertFiles_ok_calls w _ m hm
      rw [hcalls, dirFileList_BOTH]
      refine ⟨rfl, ?_, ?_, ?_⟩
      · intro n hn hsuf
        rw [List.mem_append, List.mem_map]
        left
        exact ⟨n, List.mem_filter.mpr ⟨hn, by simpa using hsuf⟩, rfl⟩
      · intro n hn hsuf
        rw [List.mem_append]
        right
        rw [List.mem_map]
        exact ⟨n, List.mem_filter.mpr ⟨hn, by simpa using hsuf⟩, rfl⟩
      · intro hnd
        rw [← dirFileList_BOTH]
        exact dirFileList_BOTH_nodup w (w.resolve dir) hnd

theorem mem_dirFileList_iff (w : World) (d : FsPath) (t : ConverterType)
    (k : FileKind) (q : FsPath) :
    (k, q) ∈ dirFileList w d t ↔
      (q.dir = comps d ∧ q.name ∈ w.listDir (comps d) ∧
        ((k = FileKind.ipynb ∧ ipynbExt <:+ q.name ∧
            (t = ConverterType.IPYNB ∨ t = ConverterType.BOTH)) ∨
         (k = FileKind.rmd ∧ rmdExt <:+ q.name ∧
            (t = ConverterType.RMD ∨ t = ConverterType.BOTH)))) := by
  obtain ⟨qd, qn⟩ := q
  cases t <;> cases k <;>
    simp [dirFileList, globFilter, List.mem_filter, FsPath.mk.injEq,
      and_comm, and_assoc] <;>
    aesop

/-- C10: selection for conversion is case-sensitive and exact.  In every
mode, an entry `(k, q)` is selected iff `q` is an immediate child of the
directory whose name ends in the literal `.ipynb` (notebook converter) or
the literal `.Rmd` (markdown converter) and the mode includes that
converter; children whose names end only in another casing of these
extensions never satisfy this and are never selected.  On success the keys
of the returned mapping are exactly the selected children. -/
theorem convert_directory_case_sensitive (w : World) (dir : FsPath)
    (t : ConverterType) :
    (∀ k q, (k, q) ∈ dirFileList w (w.resolve dir) t ↔
      (q.dir = comps (w.resolve dir) ∧
        q.name ∈ w.listDir (comps (w.resolve dir)) ∧
        ((k = FileKind.ipynb ∧ ipynbExt <:+ q.name ∧
            (t = ConverterType.IPYNB ∨ t = ConverterType.BOTH)) ∨
         (k = FileKind.rmd ∧ rmdExt <:+ q.name ∧
            (t = ConverterType.RMD ∨ t = ConverterType.BOTH))))) ∧
    (∀ m, (convert_directory w dir t).2 = Except.ok m →
      m.map Prod.fst = (dirFileList w (w.resolve dir) t).map Prod.snd) := by
  refine ⟨fun k q => mem_dirFileList_iff w (w.resolve dir) t k q, ?_⟩
  intro m hm
  cases hd : w.isDir (comps (w.resolve dir)) with
  | false =>
    rw [convert_directory_not_a_directory w dir _ hd] at hm
    exact absurd hm (by simp)
  | true =>
    rw [convert_directory_isDir w dir _ hd] at hm
    exact convertFiles_ok_keys w _ m hm

/-! ## Concrete worlds for the remaining witnesses -/

/-- A world where every subprocess exits 0 over an empty directory. -/
def okWorld : World :=
  World.mk id (fun _ => 0) (fun _ => []) (fun _ => true) (fun _ => true)

theorem convert_rmd_output_path_witness :
    (convert_rmd okWorld aMarkdown).2 =
      Except.ok ((okWorld.resolve aMarkdown).withSuffix rExt) :=
  (convert_rmd_output_path okWorld aMarkdown (by decide) (by decide)).1

/-- A world where the directory of `a.ipynb` holds the produced script
`a.py` and the export tool succeeds. -/
def scriptWorld : World :=
  World.mk id (fun _ => 0) (fun _ => ["a.py".data]) (fun _ => true)
    (fun _ => true)

theorem convert_ipynb_success_shape_witness :
    (FsPath.mk ["d".data] "a.py".data).dir = (scriptWorld.resolve aNotebook).dir ∧
    pStem (FsPath.mk ["d".data] "a.py".data).name =
      pStem (scriptWorld.resolve aNotebook).name ∧
    pSuffix (FsPath.mk ["d".data] "a.py".data).name ≠ ".ipynb".data :=
  convert_ipynb_success_shape scriptWorld aNotebook
    (FsPath.mk ["d".data] "a.py".data) (by decide)

end PyNbToSrc
